import Mathlib

/-!
Verification of the content-tree core of the Lume static-site engine
(`src/core/filesystem.ts`): the Page/Directory model, the data cascade with
typed merge keys, destination/URL derivation, the effective-data cache, hash
carry-over on page replacement, component inheritance and tree traversal.

JavaScript objects and `Map`s are modelled as insertion-ordered association
lists; mutable object state is modelled by explicit state passing.  The
helpers `createDate`, `stringToDocument` and `documentToString` live in
`core/utils.ts`, which is outside the sources under verification; they are
modelled from the spec (or taken as parameters) where needed.
-/

set_option autoImplicit false

namespace Lume

/-! ## JavaScript-style ordered maps

The semantics shared by object literals, object spread and `Map`: assigning
an existing key updates its value in place (keeping its position), a new key
is appended at the end. -/

/-- A JS object / `Map` as an insertion-ordered association list. -/
abbrev JsMap (α : Type) := List (String × α)

/-- Property lookup (`obj[k]` / `Map.get`). -/
def jsGet {α : Type} : JsMap α → String → Option α
  | [], _ => none
  | (k1, v1) :: rest, k => if k1 = k then some v1 else jsGet rest k

/-- Property assignment (`obj[k] = v` / `Map.set`): update in place when the
key is present, append when it is new. -/
def jsSet {α : Type} : JsMap α → String → α → JsMap α
  | [], k, v => [(k, v)]
  | (k1, v1) :: rest, k, v =>
    if k1 = k then (k1, v) :: rest else (k1, v1) :: jsSet rest k v

/-- The `key in obj` test. -/
def jsHas {α : Type} (m : JsMap α) (k : String) : Bool :=
  (jsGet m k).isSome

/-- Object spread `\x7b ...a, ...b \x7d` (also `new Map([...a, ...b])`):
start from `a` and assign every entry of `b` in order. -/
def jsSpread {α : Type} (a b : JsMap α) : JsMap α :=
  b.foldl (fun acc kv => jsSet acc kv.1 kv.2) a

/-! ## JS `Set` deduplication

`[...new Set(l)]` keeps the first occurrence of each element, in order. -/

/-- Helper for `jsSetDedup`: `seen` holds the elements already emitted. -/
def dedupAux {α : Type} [BEq α] (seen : List α) : List α → List α
  | [] => []
  | a :: l => if seen.contains a then dedupAux seen l else a :: dedupAux (a :: seen) l

/-- `[...new Set(l)]`: duplicates removed, first occurrence kept. -/
def jsSetDedup {α : Type} [BEq α] (l : List α) : List α :=
  dedupAux [] l

/-! ## Strings and posix paths -/

/-- `posix.basename`: the last path segment, with trailing slashes ignored
(`""` when the path is empty or all slashes). -/
def basename (p : String) : String :=
  let r := p.toList.reverse.dropWhile (fun c => c == '/')
  String.mk (r.takeWhile (fun c => c != '/')).reverse

/-- Split a character list around the first occurrence of `pat`, if any. -/
def splitAtFirst (pat : List Char) : List Char → Option (List Char × List Char)
  | [] => if pat.isEmpty then some ([], []) else none
  | c :: rest =>
    if pat.isPrefixOf (c :: rest) then some ([], (c :: rest).drop pat.length)
    else
      match splitAtFirst pat rest with
      | some (a, b) => some (c :: a, b)
      | none => none

/-- `String.prototype.replace` with a plain-string pattern: replaces the
first occurrence only. -/
def replaceFirst (s pat repl : String) : String :=
  match splitAtFirst pat.toList s.toList with
  | some (a, b) => String.mk (a ++ repl.toList ++ b)
  | none => s

/-- Split a character list on `'/'` (the `path.split` of Node's
normalization). -/
def splitSlashAux (cur : List Char) : List Char → List String
  | [] => [String.mk cur.reverse]
  | c :: rest =>
    if c = '/' then String.mk cur.reverse :: splitSlashAux [] rest
    else splitSlashAux (c :: cur) rest

/-- Split a string into its `/`-separated segments. -/
def splitSlash (p : String) : List String :=
  splitSlashAux [] p.toList

/-- Join segments back with `/`. -/
def joinSlash : List String → String
  | [] => ""
  | [s] => s
  | s :: rest => s ++ "/" ++ joinSlash rest

/-- Whether the first character is `'/'` (posix absolute path test). -/
def startsWithSlash (p : String) : Bool :=
  match p.toList with
  | c :: _ => c = '/'
  | [] => false

/-- Whether the last character is `'/'` (trailing-separator test). -/
def endsWithSlash (p : String) : Bool :=
  match p.toList.reverse with
  | c :: _ => c = '/'
  | [] => false

/-- Segment processing of `posix.normalize` (`normalizeString` in Node):
`stack` is the output so far, reversed; `".."` pops a segment, or is kept
when the path is relative and there is nothing to pop. -/
def normSegs (allowAboveRoot : Bool) : List String → List String → List String
  | stack, [] => stack.reverse
  | stack, seg :: rest =>
    if seg = "" || seg = "." then normSegs allowAboveRoot stack rest
    else if seg = ".." then
      match stack with
      | top :: stack1 =>
        if top ≠ ".." then normSegs allowAboveRoot stack1 rest
        else if allowAboveRoot then normSegs allowAboveRoot (".." :: top :: stack1) rest
        else normSegs allowAboveRoot (top :: stack1) rest
      | [] =>
        if allowAboveRoot then normSegs allowAboveRoot [".."] rest
        else normSegs allowAboveRoot [] rest
    else normSegs allowAboveRoot (seg :: stack) rest

/-- `posix.normalize`. -/
def posixNormalize (p : String) : String :=
  if p = "" then "." else
  let isAbs := startsWithSlash p
  let trailing := endsWithSlash p
  let body := joinSlash (normSegs (!isAbs) [] (splitSlash p))
  if body = "" then
    if isAbs then "/" else if trailing then "./" else "."
  else
    let body1 := if trailing then body ++ "/" else body
    if isAbs then "/" ++ body1 else body1

/-- `posix.join` at the only arity the sources use: drop empty arguments,
join with `/`, normalize (`"."` when both are empty). -/
def posixJoin (a b : String) : String :=
  if a = "" && b = "" then "."
  else if a = "" then posixNormalize b
  else if b = "" then posixNormalize a
  else posixNormalize (a ++ "/" ++ b)

/-- `str.slice(0, -n)`: drop the last `n` characters (empty when `n` exceeds
the length). -/
def jsSliceNeg (s : String) (n : Nat) : String :=
  String.mk (s.toList.take (s.toList.length - n))

/-! ## Runtime values and Data bags -/

/-- A JavaScript runtime value as the cascade manipulates them.  `vPage` is
the opaque self-reference the getter stores under the `page` key. -/
inductive Value where
  | vStr (s : String)
  | vNum (n : Int)
  | vBool (b : Bool)
  | vDate (timestamp : Int)
  | vArr (elems : List Value)
  | vObj (fields : List (String × Value))
  | vPage
deriving BEq

mutual

/-- JS `String(value)` coercion as used by the `stringArray` merge strategy.
Arrays stringify by joining their elements with `","`; objects (and the
`page` self-reference) give `"[object Object]"`; the exact text of `Date`
stringification is abstracted, no claim depends on it. -/
def Value.toStr : Value → String
  | .vStr s => s
  | .vNum n => toString n
  | .vBool b => if b then "true" else "false"
  | .vDate t => "Date:" ++ toString t
  | .vArr l => String.intercalate "," (toStrList l)
  | .vObj _ => "[object Object]"
  | .vPage => "[object Object]"

/-- Pointwise `String(-)` coercion of a list of values. -/
def toStrList : List Value → List String
  | [] => []
  | v :: l => v.toStr :: toStrList l

end

/-- The open Data mapping of a node (front matter for pages, `_data` for
directories, or a merged result). -/
abbrev Data := JsMap Value

/-- The entries an object spread takes from a possibly absent value:
the fields when it is an object, nothing otherwise (spreading `undefined`,
`null`, numbers or booleans contributes no entries). -/
def objEntries : Option Value → List (String × Value)
  | some (.vObj fields) => fields
  | _ => []

/-- The array view the merge loop takes of `d[key]`:
`Array.isArray(d[key]) ? d[key] : (key in d) ? [d[key]] : []`. -/
def arrView (d : Data) (k : String) : List Value :=
  match jsGet d k with
  | some (.vArr l) => l
  | some v => [v]
  | none => []

/-- One iteration of the merge loop of the `data` getter
(`src/core/filesystem.ts`, lines 113-153): apply the declared strategy for
key `k` to the accumulated data.  Unrecognized strategy values fall through
with no action, exactly like the `switch`. -/
def applyMerge (pageData parentData : Data) (acc : Data) (k : String) (ty : Value) : Data :=
  match ty with
  | .vStr "stringArray" =>
    let merged := arrView parentData k ++ arrView pageData k
    jsSet acc k (.vArr ((jsSetDedup (merged.map Value.toStr)).map Value.vStr))
  | .vStr "array" =>
    let merged := arrView parentData k ++ arrView pageData k
    jsSet acc k (.vArr (jsSetDedup merged))
  | .vStr "object" =>
    jsSet acc k (.vObj (jsSpread (objEntries (jsGet parentData k)) (objEntries (jsGet pageData k))))
  | _ => acc

/-- The computation of the `data` getter (`src/core/filesystem.ts`, lines
93-156), with the parent's effective data — `this.parent?.data || \x7b\x7d`,
itself obtained by the same computation one level up — passed explicitly.
Pages contribute a `page` self-reference before their own data; `tags`
always defaults to the `stringArray` strategy; the merged-key declarations
of parent and node are spread over that default. -/
def computeData (isPage : Bool) (baseData parentData : Data) : Data :=
  let pageData := if isPage then jsSpread [("page", Value.vPage)] baseData else baseData
  let data0 := jsSpread parentData pageData
  let mergedKeys :=
    jsSpread
      (jsSpread [("tags", Value.vStr "stringArray")] (objEntries (jsGet parentData "mergedKeys")))
      (objEntries (jsGet pageData "mergedKeys"))
  mergedKeys.foldl (fun acc kv => applyMerge pageData parentData acc kv.1 kv.2) data0

/-! ## Src, Dest, and the Base node -/

/-- The `.src` descriptor of a Page or Directory. -/
structure Src where
  path : String
  ext : Option String := none
  lastModified : Option Int := none
  created : Option Int := none
  remote : Option String := none
deriving DecidableEq

/-- The `.dest` descriptor. -/
structure Dest where
  path : String
  ext : String
  hash : Option String := none
deriving DecidableEq

/-- The state of a `Base` node: `baseData` is the private `#data` field,
`internalData` the plugin bag `#_data`, `cache` the memoized merged data
`#cache`. -/
structure BaseState where
  src : Src
  dest : Dest
  baseData : Data := []
  internalData : Data := []
  cache : Option Data := none

/-- The date-prefix matcher `/^([^_]+)?_/` on the characters of a
basename: returns the full matched text and the optional capture group.  A
basename starting with `_` matches with an absent group; with no `_` at
all there is no match (the greedy `[^_]+` consumed everything and no `_`
follows). -/
def dateInPathL : List Char → Option (String × Option String)
  | [] => none
  | c :: cs =>
    if c = '_' then some ("_", none)
    else
      let tokL := (c :: cs).takeWhile (fun x => x != '_')
      if tokL.length = (c :: cs).length then none
      else some (String.mk (tokL ++ ['_']), some (String.mk tokL))

/-- The date-prefix matcher applied to a basename string. -/
def dateInPath (b : String) : Option (String × Option String) :=
  dateInPathL b.toList

/-- The `Base` constructor (`src/core/filesystem.ts`, lines 36-62).
`createDate` is `Modelled from the spec:` it lives in `core/utils.ts`,
outside the verified sources, so it is taken as a parameter — the spec only
requires that some tokens "parse as a date".  Its argument is the capture
group of the match, which JavaScript passes as `undefined` when the group
did not participate. -/
def mkBase (createDate : Option String → Option Int) (osrc : Option Src) : BaseState :=
  let src := osrc.getD { path := "" }
  let dest : Dest := { path := src.path, ext := src.ext.getD "" }
  match dateInPath (basename src.path) with
  | some (found, dateStr) =>
    match createDate dateStr with
    | some date =>
      { src := src, dest := { dest with path := replaceFirst dest.path found "" },
        baseData := [("date", Value.vDate date)] }
    | none => { src := src, dest := dest }
  | none => { src := src, dest := dest }

/-- `refreshCache` of `Base` (lines 177-183): drop the memo, report whether
one was dropped. -/
def refreshCacheB (b : BaseState) : Bool × BaseState :=
  match b.cache with
  | some _ => (true, { b with cache := none })
  | none => (false, b)

/-- The `data` getter (lines 93-96 and 155): return the memo when present,
otherwise compute, memoize and return. -/
def readData (isPage : Bool) (parentData : Data) (b : BaseState) : Data × BaseState :=
  match b.cache with
  | some c => (c, b)
  | none =>
    let d := computeData isPage b.baseData parentData
    (d, { b with cache := some d })

/-- The `data` setter (lines 159-162): drop the memo, replace the own
data. -/
def setDataProp (b : BaseState) (d : Data) : BaseState :=
  { b with cache := none, baseData := d }

/-- The `baseData` setter (lines 84-87): replace the own data, then
`refreshCache`. -/
def setBaseData (b : BaseState) (d : Data) : BaseState :=
  (refreshCacheB { b with baseData := d }).2

/-- The parent setter's effect on the child's `dest`
(lines 70-76): `dest.path = join(parent?.dest.path || "/",
basename(dest.path))`. -/
def setParentDest (parentDestPath : String) (d : Dest) : Dest :=
  { d with path := posixJoin (if parentDestPath = "" then "/" else parentDestPath) (basename d.path) }

/-! ## Pages -/

/-- Page content: a string or a byte array (`Uint8Array`). -/
inductive ContentV where
  | str (s : String)
  | bytes (b : List Nat)
deriving DecidableEq

/-- `content.toString()`: a `Uint8Array` stringifies to its comma-joined
elements. -/
def contentToString : ContentV → String
  | .str s => s
  | .bytes b => String.intercalate "," (b.map toString)

/-- Modelled from the spec: the parsed-document representation produced by
`stringToDocument` in `core/utils.ts`, outside the verified sources.  The
spec only requires a parsed form distinct from the raw text, so a document
is modelled as its underlying HTML. -/
structure HTMLDocumentV where
  html : String
deriving DecidableEq

/-- Modelled from the spec: `stringToDocument` of `core/utils.ts` parses an
HTML string into a document. -/
def stringToDocument (s : String) : HTMLDocumentV :=
  { html := s }

/-- Modelled from the spec: `documentToString` of `core/utils.ts`
serializes a document back to HTML text. -/
def documentToString (d : HTMLDocumentV) : String :=
  d.html

/-- The state of a `Page`: the `Base` part plus the private content slots
`#content` and `#document`. -/
structure PageS where
  toBase : BaseState
  content : Option ContentV := none
  document : Option HTMLDocumentV := none

/-- The `Page` constructor: the `Base` constructor with empty content
slots. -/
def mkPage (createDate : Option String → Option Int) (osrc : Option Src) : PageS :=
  { toBase := mkBase createDate osrc }

/-- The `content` setter (lines 243-248): clears any parsed document. -/
def Page.setContent (p : PageS) (c : Option ContentV) : PageS :=
  { p with document := none, content := c }

/-- The `content` getter (lines 250-257): when a parsed document is cached,
serialize it back, memoize the text and drop the document. -/
def Page.getContent (p : PageS) : Option ContentV × PageS :=
  match p.document with
  | some d => (some (.str (documentToString d)), { p with content := some (.str (documentToString d)), document := none })
  | none => (p.content, p)

/-- The `document` setter (lines 260-263): clears any raw content. -/
def Page.setDocument (p : PageS) (d : Option HTMLDocumentV) : PageS :=
  { p with content := none, document := d }

/-- The `document` getter (lines 265-274): parse and memoize only when no
document is cached, raw content exists and the destination extension is
`.html` or `.htm`; always return the (possibly just filled) document
slot. -/
def Page.getDocument (p : PageS) : Option HTMLDocumentV × PageS :=
  match p.document with
  | some d => (some d, p)
  | none =>
    match p.content with
    | some c =>
      if p.toBase.dest.ext = ".html" || p.toBase.dest.ext = ".htm" then
        let d := stringToDocument (contentToString c)
        (some d, { p with document := some d })
      else (none, p)
    | none => (none, p)

/-- A `Partial<Dest>` argument: absent fields leave the current `dest`
untouched.  (A field explicitly set to `undefined` is not representable;
no caller passes one.) -/
structure DestPatch where
  path : Option String := none
  ext : Option String := none
  hash : Option String := none

/-- `this.dest = \x7b ...this.dest, ...dest \x7d` of `updateDest`. -/
def applyPatch (d : Dest) (dp : DestPatch) : Dest :=
  { path := dp.path.getD d.path, ext := dp.ext.getD d.ext,
    hash := match dp.hash with | some h => some h | none => d.hash }

/-- The `prettyUrl` argument of `updateDest`: a boolean or the string
`"no-html-extension"`. -/
inductive PrettyUrl where
  | flag (b : Bool)
  | noHtmlExt
deriving DecidableEq

/-- The URL derivation of `updateDest` (lines 229-239) from the already
updated `dest`. -/
def urlFor (dest : Dest) (pretty : PrettyUrl) : String :=
  if dest.ext = ".html" then
    if basename dest.path = "index" then jsSliceNeg dest.path 5
    else
      match pretty with
      | .noHtmlExt => dest.path
      | .flag _ => dest.path ++ dest.ext
  else dest.path ++ dest.ext

/-- `Page.updateDest` (lines 222-240): merge the partial fields into
`dest`, derive the url, and store it via `this.data.url = ...` — which
reads the effective data (memoizing it if needed, hence the explicit
`parentData`) and assigns `url` on the memo object. -/
def Page.updateDest (parentData : Data) (p : PageS) (dp : DestPatch) (pretty : PrettyUrl) : PageS :=
  let dest1 := applyPatch p.toBase.dest dp
  let url := urlFor dest1 pretty
  let rd := readData true parentData { p.toBase with dest := dest1 }
  { p with toBase := { rd.2 with cache := some (jsSet rd.1 "url" (.vStr url)) } }

/-! ## Components -/

/-- A registered component.  The render function is kept abstract. -/
structure ComponentV where
  path : String
  name : String
  render : Data → String
  css : Option String := none
  js : Option String := none

/-- An entry of a component registry: a component or a nested sub-map
(`Components = Map<string, Component | Components>`). -/
inductive CompEntry where
  | comp (c : ComponentV)
  | sub (m : List (String × CompEntry))

/-- A component registry. -/
abbrev Components := JsMap CompEntry

/-- `Directory.getComponents` (lines 317-328), with the parent chain made
explicit: `ancestors` lists the `components` field of the parent, the
grandparent, and so on up to the root.  When this directory's own registry
is unset the method returns early with absence; otherwise, with a parent
present, it builds `new Map([...(parent.getComponents() ?? []), ...own])`,
and with no parent it returns the own registry itself. -/
def getComponentsL : Option Components → List (Option Components) → Option Components
  | none, _ => none
  | some own, [] => some own
  | some own, p :: rest => some (jsSpread ((getComponentsL p rest).getD []) own)

/-- The union the spec describes: registries listed from the farthest
ancestor to the directory itself, later (nearer) registries overriding on
name collision. -/
def ancestorUnion : List Components → Components
  | [] => []
  | r :: rest => rest.foldl jsSpread r

/-! ## Directories

The tree is a pair of mutually inductive types: a directory node and the
insertion-ordered list behind its `dirs` map. -/

/-- A static file descriptor. -/
structure StaticFile where
  src : String
  dest : String
  saved : Option Bool := none
  removed : Option Bool := none
  remote : Option String := none
deriving DecidableEq

mutual

/-- A `Directory`: its `Base` part, its `pages` and `dirs` maps, its static
files and its optional component registry. -/
inductive DirectoryT where
  | node (base : BaseState) (pages : JsMap PageS) (dirs : DirListT)
      (staticFiles : List StaticFile) (components : Option Components)

/-- The insertion-ordered entries of a `dirs` map. -/
inductive DirListT where
  | nil
  | cons (name : String) (dir : DirectoryT) (rest : DirListT)

end

/-- The `Base` part of a directory. -/
def DirectoryT.baseOf : DirectoryT → BaseState
  | .node b _ _ _ _ => b

/-- The `pages` map of a directory. -/
def DirectoryT.pagesOf : DirectoryT → JsMap PageS
  | .node _ p _ _ _ => p

/-- The `dirs` map of a directory. -/
def DirectoryT.dirsOf : DirectoryT → DirListT
  | .node _ _ d _ _ => d

/-- The effective-data memo of a directory. -/
def DirectoryT.cacheOf (d : DirectoryT) : Option Data :=
  d.baseOf.cache

/-- `Map.get` on a `dirs` map. -/
def dirsLookup : DirListT → String → Option DirectoryT
  | .nil, _ => none
  | .cons n d rest, k => if n = k then some d else dirsLookup rest k

/-- `Map.set` on a `dirs` map. -/
def dirsSet : DirListT → String → DirectoryT → DirListT
  | .nil, k, v => .cons k v .nil
  | .cons n d rest, k, v =>
    if n = k then .cons n v rest else .cons n d (dirsSet rest k v)

/-- `Directory.setPage` (lines 295-304): look up any old page, reparent the
new page (which recomputes its `dest.path` from the parent's), recompute
`dest.path` again relative to this directory, store it, and carry the old
page's `dest.hash` onto it when one existed.  The stored object is the
mutated page, so the carry-over is visible through the map. -/
def DirectoryT.setPage (d : DirectoryT) (name : String) (page : PageS) : DirectoryT :=
  match d with
  | .node base pages dirs sf comps =>
    let oldPage := jsGet pages name
    let p1 := { page with toBase :=
      { page.toBase with dest := setParentDest base.dest.path page.toBase.dest } }
    let p2 := { p1 with toBase := { p1.toBase with dest :=
      { p1.toBase.dest with path := posixJoin base.dest.path (basename p1.toBase.dest.path) } } }
    let p3 :=
      match oldPage with
      | some op => { p2 with toBase := { p2.toBase with dest :=
          { p2.toBase.dest with hash := op.toBase.dest.hash } } }
      | none => p2
    .node base (jsSet pages name p3) dirs sf comps

/-- `Directory.unsetPage` (lines 307-309). -/
def DirectoryT.unsetPage (d : DirectoryT) (name : String) : DirectoryT :=
  match d with
  | .node base pages dirs sf comps =>
    .node base (pages.filter (fun kv => kv.1 ≠ name)) dirs sf comps

/-- `Directory.createDirectory` (lines 285-292): build a child with
`src.path = join(this.src.path, name)`, reparent it (recomputing its
`dest.path`), register it under `name`.  Returns the updated parent and
the child, mirroring the method's return value. -/
def DirectoryT.createDirectory (createDate : Option String → Option Int)
    (d : DirectoryT) (name : String) : DirectoryT × DirectoryT :=
  match d with
  | .node base pages dirs sf comps =>
    let path := posixJoin base.src.path name
    let cb := mkBase createDate (some { path := path })
    let child := DirectoryT.node { cb with dest := setParentDest base.dest.path cb.dest } [] .nil [] none
    (.node base pages (dirsSet dirs name child) sf comps, child)

mutual

/-- `Directory.getPages` (lines 331-339): this directory's own pages in
insertion order, then each child directory's pages recursively, children in
insertion order. -/
def DirectoryT.getPages : DirectoryT → List PageS
  | .node _ pages dirs _ _ => pages.map (fun kv => kv.2) ++ DirListT.getPagesL dirs

/-- Pages of a list of child directories, in order. -/
def DirListT.getPagesL : DirListT → List PageS
  | .nil => []
  | .cons _ d rest => d.getPages ++ DirListT.getPagesL rest

end

mutual

/-- `Directory.refreshCache` (lines 353-361): clear the own memo via the
base behavior; only when one was actually dropped, refresh every child page
and child directory recursively, and report `true`; otherwise leave the
children untouched and report `false`. -/
def DirectoryT.refreshCacheD : DirectoryT → Bool × DirectoryT
  | .node base pages dirs sf comps =>
    match refreshCacheB base with
    | (true, base1) =>
      let pages1 := pages.map (fun kv => (kv.1, { kv.2 with toBase := (refreshCacheB kv.2.toBase).2 }))
      (true, .node base1 pages1 (DirListT.refreshCacheL dirs) sf comps)
    | (false, _) => (false, .node base pages dirs sf comps)

/-- Refresh every directory of a `dirs` map. -/
def DirListT.refreshCacheL : DirListT → DirListT
  | .nil => .nil
  | .cons n d rest => .cons n d.refreshCacheD.2 (DirListT.refreshCacheL rest)

end

/-! ## Concrete instances used by the scenario theorems and witnesses -/

/-- A date parser that recognizes nothing; the traversal scenario uses
file names with no underscore, so any parser gives the same tree. -/
def cd0 : Option String → Option Int := fun _ => none

/-- A date parser that recognizes the ISO day `2020-01-01` (as the spec
requires some tokens to "parse as a date"). -/
def cdEx : Option String → Option Int :=
  fun os => if os = some "2020-01-01" then some 1577836800 else none

/-- Traversal scenario, step 0: an empty root directory. -/
def c4Root : DirectoryT :=
  DirectoryT.node (mkBase cd0 (some { path := "" })) [] .nil [] none

/-- Traversal scenario, step 1: the root receives page `"a"`. -/
def c4Step1 : DirectoryT :=
  c4Root.setPage "a" (mkPage cd0 (some { path := "/a", ext := some ".md" }))

/-- Traversal scenario, step 2: `createDirectory "sub"` (updated root and
the created child). -/
def c4Pair : DirectoryT × DirectoryT :=
  c4Step1.createDirectory cd0 "sub"

/-- Traversal scenario, step 3: page `"b"` is added to the subdirectory. -/
def c4Sub1 : DirectoryT :=
  c4Pair.2.setPage "b" (mkPage cd0 (some { path := "/b", ext := some ".md" }))

/-- Traversal scenario: the mutation of the aliased subdirectory object is
written back into the root's `dirs` map. -/
def c4Step3 : DirectoryT :=
  match c4Pair.1 with
  | .node b p dirs sf c => .node b p (dirsSet dirs "sub" c4Sub1) sf c

/-- Traversal scenario, step 4: page `"c"` is added to the root after the
subdirectory. -/
def c4Final : DirectoryT :=
  c4Step3.setPage "c" (mkPage cd0 (some { path := "/c", ext := some ".md" }))

/-- A sample component registered under name `"x"`. -/
def compX : ComponentV :=
  { path := "/_components/x.ts", name := "x", render := fun _ => "" }

/-- A sample component registered under name `"y"`. -/
def compY : ComponentV :=
  { path := "/_components/y.ts", name := "y", render := fun _ => "" }

/-- The replacement own data used by the cache witness. -/
def wNewData : Data := [("title", Value.vStr "new")]

/-- A dirty base node with some own data, used by the cache witness. -/
def wBase : BaseState :=
  { src := { path := "/p" }, dest := { path := "/p", ext := ".html" },
    baseData := [("title", Value.vStr "old")] }

/-- A directory base, used by the hash carry-over witness. -/
def wDirBase : BaseState :=
  { src := { path := "/blog" }, dest := { path := "/blog", ext := "" } }

/-- The old page stored under `"x"`, carrying hash `"H1"`. -/
def wOldPage : PageS :=
  { toBase := { src := { path := "/blog/x" },
                dest := { path := "/blog/x", ext := ".html", hash := some "H1" } } }

/-- A directory holding `wOldPage` under name `"x"`. -/
def wDir : DirectoryT :=
  DirectoryT.node wDirBase [("x", wOldPage)] .nil [] none

/-- A rebuilt page for name `"x"` with no hash. -/
def wNewPage : PageS :=
  { toBase := { src := { path := "/blog/x" },
                dest := { path := "/blog/x", ext := ".html" } } }

/-- A child directory with a populated effective-data cache. -/
def wDirC : DirectoryT :=
  DirectoryT.node
    { src := { path := "/d/c" }, dest := { path := "/d/c", ext := "" },
      cache := some [("k", Value.vNum 2)] } [] .nil [] none

/-- A directory with a populated cache whose child `"c"` is `wDirC`. -/
def wDirD : DirectoryT :=
  DirectoryT.node
    { src := { path := "/d" }, dest := { path := "/d", ext := "" },
      cache := some [("k", Value.vNum 1)] } [] (.cons "c" wDirC .nil) [] none

/-- A non-HTML page holding only raw content. -/
def wCssPage : PageS :=
  { toBase := { src := { path := "/style", ext := some ".css" },
                dest := { path := "/style", ext := ".css" } },
    content := some (.str "body \x7b color: red \x7d") }

/-- A non-HTML page on which `document` was assigned through its setter. -/
def wCssDocPage : PageS :=
  Page.setDocument
    { toBase := { src := { path := "/style", ext := some ".css" },
                  dest := { path := "/style", ext := ".css" } } }
    (some { html := "<p>x</p>" })

/-- A source whose basename has a date prefix that also occurs as an
earlier path segment. -/
def srcClash : Src :=
  { path := "/2020-01-01_dir/2020-01-01_post", ext := some ".md" }

/-- A source whose basename has a date prefix occurring nowhere else. -/
def srcHello : Src :=
  { path := "/posts/2020-01-01_hello", ext := some ".md" }


/-! ## Map and dedup lemmas -/

/-- Looking up a key just set returns the new value. -/
theorem jsGet_jsSet_self {α : Type} (m : JsMap α) (k : String) (v : α) :
    jsGet (jsSet m k v) k = some v := by
  induction m with
  | nil => simp [jsSet, jsGet]
  | cons kv rest ih =>
    obtain ⟨k1, v1⟩ := kv
    by_cases h : k1 = k <;> simp [jsSet, jsGet, h, ih]

/-- Setting the same key twice keeps only the last value. -/
theorem jsSet_jsSet_self {α : Type} (m : JsMap α) (k : String) (v w : α) :
    jsSet (jsSet m k v) k w = jsSet m k w := by
  induction m with
  | nil => simp [jsSet]
  | cons kv rest ih =>
    obtain ⟨k1, v1⟩ := kv
    by_cases h : k1 = k <;> simp [jsSet, h, ih]

/-- Re-deduplicating an already deduplicated front part is the identity. -/
theorem dedupAux_append {α : Type} [BEq α] (seen : List α) (A B : List α) :
    dedupAux seen (dedupAux seen A ++ B) = dedupAux seen (A ++ B) := by
  induction A generalizing seen with
  | nil => rfl
  | cons a A ih =>
    cases hc : seen.contains a <;> simp [dedupAux, hc, ih]

/-- `mkBase` never starts with a memo: nodes are born dirty. -/
theorem mkBase_cache_none (createDate : Option String → Option Int) (osrc : Option Src) :
    (mkBase createDate osrc).cache = none := by
  simp only [mkBase]
  split
  · split <;> rfl
  · rfl

/-- Refreshing a directory whose memo is empty reports `false` and leaves
the whole subtree untouched. -/
theorem refreshD_of_none (d : DirectoryT) (h : d.cacheOf = none) :
    d.refreshCacheD = (false, d) := by
  cases d with
  | node base pages dirs sf comps =>
    simp [DirectoryT.cacheOf, DirectoryT.baseOf] at h
    simp [DirectoryT.refreshCacheD, refreshCacheB, h]

/-- After a directory refresh the memo is always empty. -/
theorem cacheOf_refreshD (d : DirectoryT) : (d.refreshCacheD).2.cacheOf = none := by
  cases d with
  | node base pages dirs sf comps =>
    cases hb : base.cache <;>
      simp [DirectoryT.refreshCacheD, refreshCacheB, hb, DirectoryT.cacheOf, DirectoryT.baseOf]

/-- Refreshing a `dirs` map refreshes each entry pointwise. -/
theorem dirsLookup_refreshL : (l : DirListT) → (k : String) →
    dirsLookup (DirListT.refreshCacheL l) k = (dirsLookup l k).map (fun d => d.refreshCacheD.2)
  | .nil, k => rfl
  | .cons n d rest, k => by
    by_cases h : n = k <;> simp [DirListT.refreshCacheL, dirsLookup, h, dirsLookup_refreshL rest k]

/-- C1: stringArray cascade merge: the effective `tags` of a child page
under a root directory are the parent's own tags followed by the child's,
coerced to string, deduplicated keeping first occurrences; in particular
parent tags `["a"]` and child tags `["a","b"]` give `["a","b"]`. -/
theorem c1_stringarray_merge (ps cs : List Value) :
    jsGet (computeData true [("tags", Value.vArr cs)]
        (computeData false [("tags", Value.vArr ps)] [])) "tags"
      = some (Value.vArr ((jsSetDedup (((ps ++ cs).map Value.toStr))).map Value.vStr)) ∧
    jsGet (computeData true [("tags", Value.vArr [Value.vStr "a", Value.vStr "b"])]
        (computeData false [("tags", Value.vArr [Value.vStr "a"])] [])) "tags"
      = some (Value.vArr [Value.vStr "a", Value.vStr "b"]) := by
  refine ⟨?_, by rfl⟩
  simp [computeData, jsSpread, applyMerge, arrView, objEntries, jsGet, jsSet, jsSetDedup]
  rw [show (Value.toStr ∘ Value.vStr) = fun s => s from funext fun s => by simp [Value.toStr]]
  simp [dedupAux_append]

/-- C2: the per-node effective-data cache: nodes start dirty; a read while
dirty computes and memoizes; a read while clean returns the memo unchanged;
replacing own data makes the next read reflect the new values;
`refreshCache` right after the replacement reports `false`, right after a
successful read reports `true`. -/
theorem c2_cache_state_machine (createDate : Option String → Option Int) (osrc : Option Src)
    (isPage : Bool) (pd : Data) (b : BaseState) (d0 : Data) (hdirty : b.cache = none) :
    (mkBase createDate osrc).cache = none ∧
    (readData isPage pd b).1 = computeData isPage b.baseData pd ∧
    (readData isPage pd b).2.cache = some (computeData isPage b.baseData pd) ∧
    readData isPage pd (readData isPage pd b).2 = ((readData isPage pd b).1, (readData isPage pd b).2) ∧
    (refreshCacheB (readData isPage pd b).2).1 = true ∧
    (refreshCacheB (setDataProp (readData isPage pd b).2 d0)).1 = false ∧
    (readData isPage pd (setDataProp (readData isPage pd b).2 d0)).1 = computeData isPage d0 pd := by
  refine ⟨mkBase_cache_none createDate osrc, ?_, ?_, ?_, ?_, ?_, ?_⟩ <;>
    simp [readData, hdirty, setDataProp, refreshCacheB]

/-- C2 witness: the cache state machine at a concrete dirty node. -/
theorem c2_cache_state_machine_witness :
    wBase.cache = none ∧
    ((mkBase cd0 none).cache = none ∧
     (readData false [] wBase).1 = computeData false wBase.baseData [] ∧
     (readData false [] wBase).2.cache = some (computeData false wBase.baseData []) ∧
     readData false [] (readData false [] wBase).2 = ((readData false [] wBase).1, (readData false [] wBase).2) ∧
     (refreshCacheB (readData false [] wBase).2).1 = true ∧
     (refreshCacheB (setDataProp (readData false [] wBase).2 wNewData)).1 = false ∧
     (readData false [] (setDataProp (readData false [] wBase).2 wNewData)).1 = computeData false wNewData []) :=
  ⟨rfl, c2_cache_state_machine cd0 none false [] wBase wNewData rfl⟩

/-- C3 counterexample: a directory whose own registry is unset but whose
parent registers component `"x"`: `getComponents()` returns absence, so the
ancestor component is not resolvable there, contradicting the claimed
union. -/
theorem c3_components_counterexample :
    getComponentsL none [some [("x", CompEntry.comp compX)]] = none ∧
    getComponentsL none [some [("x", CompEntry.comp compX)]] ≠ some [("x", CompEntry.comp compX)] :=
  ⟨rfl, fun h => Option.noConfusion h⟩

/-- Appending one more registry to a nonempty far-to-near chain spreads it
over the union of the rest. -/
theorem ancestorUnion_append_one (A : List Components) (p o : Components) :
    ancestorUnion ((A ++ [p]) ++ [o]) = jsSpread (ancestorUnion (A ++ [p])) o := by
  cases A with
  | nil => rfl
  | cons r A1 => simp [ancestorUnion, List.foldl_append]

/-- C3 amended: `getComponents()` is absence whenever the directory's own
registry is unset (whatever its ancestors register); when the own registry
and every ancestor registry are set, it is the union of the registries from
the farthest ancestor to the directory itself, nearer ones overriding on
collision; a two-level concrete instance showing an ancestor component
resolvable from a child whose own registry is set. -/
theorem c3_components_amended (anc : List (Option Components)) (regs : List Components) (o : Components) :
    getComponentsL none anc = none ∧
    getComponentsL (some o) (regs.map some) = some (ancestorUnion (regs.reverse ++ [o])) ∧
    getComponentsL (some [("y", CompEntry.comp compY)]) [some [("x", CompEntry.comp compX)]]
      = some [("x", CompEntry.comp compX), ("y", CompEntry.comp compY)] := by
  refine ⟨by cases anc <;> rfl, ?_, rfl⟩
  induction regs generalizing o with
  | nil => rfl
  | cons p rest ih =>
    simp only [List.map_cons, getComponentsL, ih p, Option.getD_some, List.reverse_cons]
    rw [ancestorUnion_append_one]

/-- C4 counterexample: the scenario of the claim — page `"a"`, then a
subdirectory holding `"b"`, then page `"c"` — does not traverse as
`[a, b, c]`. -/
theorem c4_traversal_counterexample :
    (c4Final.getPages).map (fun p => p.toBase.src.path) ≠ ["/a", "/b", "/c"] := by
  decide

/-- C4 amended: `getPages()` yields the directory's own pages first in
insertion order and only then the subdirectory's, so the scenario
traverses as `[a, c, b]`. -/
theorem c4_traversal_amended :
    (c4Final.getPages).map (fun p => p.toBase.src.path) = ["/a", "/c", "/b"] := by
  decide

/-- C6: when a page already sits under the name with `dest.hash = "H1"` and
the incoming page has no hash, the stored page ends with hash `"H1"`. -/
theorem c6_hash_carry (d : DirectoryT) (n : String) (op p : PageS) (h : String)
    (h1 : jsGet d.pagesOf n = some op)
    (h2 : op.toBase.dest.hash = some h)
    (h3 : p.toBase.dest.hash = none) :
    ∃ q, jsGet ((d.setPage n p).pagesOf) n = some q ∧ q.toBase.dest.hash = some h := by
  cases d with
  | node base pages dirs sf comps =>
    simp only [DirectoryT.pagesOf] at h1
    simp only [DirectoryT.setPage, DirectoryT.pagesOf, h1]
    exact ⟨_, jsGet_jsSet_self _ _ _, h2⟩

/-- C6 witness: carry-over at a concrete directory and pages. -/
theorem c6_hash_carry_witness :
    jsGet wDir.pagesOf "x" = some wOldPage ∧
    wOldPage.toBase.dest.hash = some "H1" ∧
    wNewPage.toBase.dest.hash = none ∧
    (∃ q, jsGet ((wDir.setPage "x" wNewPage).pagesOf) "x" = some q ∧ q.toBase.dest.hash = some "H1") :=
  ⟨rfl, rfl, rfl, c6_hash_carry wDir "x" wOldPage wNewPage "H1" rfl rfl rfl⟩

/-- C7: refreshing a directory with a populated memo reports `true`, clears
its memo and every child's, an immediate second refresh reports `false`;
and a refresh of any directory whose own memo is empty reports `false`
without touching the children. -/
theorem c7_cascading_invalidation (D : DirectoryT) (n : String) (c : DirectoryT) (x y : Data)
    (h1 : D.cacheOf = some x)
    (h2 : dirsLookup D.dirsOf n = some c)
    (h3 : c.cacheOf = some y) :
    (D.refreshCacheD).1 = true ∧
    (D.refreshCacheD).2.cacheOf = none ∧
    (∃ c1, dirsLookup ((D.refreshCacheD).2.dirsOf) n = some c1 ∧ c1.cacheOf = none) ∧
    (D.refreshCacheD).2.refreshCacheD = (false, (D.refreshCacheD).2) ∧
    (∀ e : DirectoryT, e.cacheOf = none → e.refreshCacheD = (false, e)) := by
  cases D with
  | node base pages dirs sf comps =>
    simp only [DirectoryT.cacheOf, DirectoryT.baseOf] at h1
    simp only [DirectoryT.dirsOf] at h2
    refine ⟨?_, ?_, ?_, ?_, fun e he => refreshD_of_none e he⟩
    · simp [DirectoryT.refreshCacheD, refreshCacheB, h1]
    · simp [DirectoryT.refreshCacheD, refreshCacheB, h1, DirectoryT.cacheOf, DirectoryT.baseOf]
    · refine ⟨(c.refreshCacheD).2, ?_, cacheOf_refreshD c⟩
      simp [DirectoryT.refreshCacheD, refreshCacheB, h1, DirectoryT.dirsOf, dirsLookup_refreshL, h2]
    · apply refreshD_of_none
      simp [DirectoryT.refreshCacheD, refreshCacheB, h1, DirectoryT.cacheOf, DirectoryT.baseOf]

/-- C7 witness: cascading invalidation at a concrete two-level tree. -/
theorem c7_cascading_invalidation_witness :
    wDirD.cacheOf = some [("k", Value.vNum 1)] ∧
    dirsLookup wDirD.dirsOf "c" = some wDirC ∧
    wDirC.cacheOf = some [("k", Value.vNum 2)] ∧
    ((wDirD.refreshCacheD).1 = true ∧
     (wDirD.refreshCacheD).2.cacheOf = none ∧
     (∃ c1, dirsLookup ((wDirD.refreshCacheD).2.dirsOf) "c" = some c1 ∧ c1.cacheOf = none) ∧
     (wDirD.refreshCacheD).2.refreshCacheD = (false, (wDirD.refreshCacheD).2) ∧
     (∀ e : DirectoryT, e.cacheOf = none → e.refreshCacheD = (false, e))) :=
  ⟨rfl, rfl, rfl,
    c7_cascading_invalidation wDirD "c" wDirC [("k", Value.vNum 1)] [("k", Value.vNum 2)] rfl rfl rfl⟩

/-- `basename` of the url used by the idempotence claim. -/
theorem basename_aindex : basename "/a/index" = "index" := by decide

/-- `"/a/index".slice(0, -5)` drops the trailing `index`. -/
theorem sliceNeg_aindex : jsSliceNeg "/a/index" 5 = "/a/" := by decide

/-- C5: `updateDest` with `path "/a/index"`, `ext ".html"` makes the
effective-data `url` the directory-style `"/a/"`, and a second identical
call reproduces the identical page state. -/
theorem c5_updatedest_idempotent (pd : Data) (p : PageS) :
    jsGet (readData true pd
        (Page.updateDest pd p { path := some "/a/index", ext := some ".html" } (.flag false)).toBase).1 "url"
      = some (Value.vStr "/a/") ∧
    Page.updateDest pd
        (Page.updateDest pd p { path := some "/a/index", ext := some ".html" } (.flag false))
        { path := some "/a/index", ext := some ".html" } (.flag false)
      = Page.updateDest pd p { path := some "/a/index", ext := some ".html" } (.flag false) := by
  obtain ⟨⟨src, dest, bd, idata, cache⟩, content, document⟩ := p
  cases cache with
  | none =>
    constructor <;>
      simp [Page.updateDest, applyPatch, urlFor, readData, basename_aindex, sliceNeg_aindex,
        jsGet_jsSet_self, jsSet_jsSet_self]
  | some c =>
    constructor <;>
      simp [Page.updateDest, applyPatch, urlFor, readData, basename_aindex, sliceNeg_aindex,
        jsGet_jsSet_self, jsSet_jsSet_self]

/-- `takeWhile` passes over a block of elements that all satisfy the
predicate. -/
theorem takeWhile_append_all {α : Type} (p : α → Bool) (A B : List α)
    (h : ∀ a ∈ A, p a = true) :
    (A ++ B).takeWhile p = A ++ B.takeWhile p := by
  induction A with
  | nil => simp
  | cons a A ih =>
    simp only [List.cons_append, List.takeWhile_cons, h a (by simp), if_true]
    rw [ih (fun x hx => h x (by simp [hx]))]

/-- The regex `/^([^_]+)?_/` on a character list of shape
`tl ++ '_' :: rl` with `tl` nonempty and underscore-free matches the
`tl ++ "_"` text and captures `tl`. -/
theorem dateInPathL_shape (tl rl : List Char) (h2 : tl ≠ [])
    (h3 : ∀ ch ∈ tl, (ch != '_') = true) :
    dateInPathL (tl ++ '_' :: rl) = some (String.mk (tl ++ ['_']), some (String.mk tl)) := by
  cases tl with
  | nil => exact absurd rfl h2
  | cons c cs =>
    have hch : (c != '_') = true := h3 c (List.mem_cons_self c cs)
    have hcne : ¬(c = '_') := by simpa using hch
    have hall : ∀ x ∈ cs, (x != '_') = true := fun x hx => h3 x (List.mem_cons_of_mem c hx)
    have htw : (cs ++ '_' :: rl).takeWhile (fun x => x != '_') = cs := by
      rw [takeWhile_append_all _ cs _ hall]
      simp [List.takeWhile_cons]
    simp only [List.cons_append, dateInPathL, if_neg hcne, List.takeWhile_cons, hch, if_true, htw]
    rw [if_neg (by simp)]

/-- The same match at string level: a basename `tok ++ "_" ++ rest` with
`tok` nonempty and underscore-free matches `tok ++ "_"` and captures
`tok`. -/
theorem dateInPath_shape (tok rest : String) (h2 : tok ≠ "")
    (h3 : ∀ ch ∈ tok.toList, (ch != '_') = true) :
    dateInPath (tok ++ "_" ++ rest) = some (tok ++ "_", some tok) := by
  have h2l : tok.toList ≠ [] := fun h => h2 (congrArg String.mk h)
  have hl : (tok ++ "_" ++ rest).toList = tok.toList ++ '_' :: rest.toList := by
    show (tok.toList ++ ['_']) ++ rest.toList = tok.toList ++ '_' :: rest.toList
    simp
  show dateInPathL (tok ++ "_" ++ rest).toList = some (tok ++ "_", some tok)
  rw [hl, dateInPathL_shape tok.toList rest.toList h2l h3]
  rfl

/-- C8 amended: when the basename starts with a date token, the node's
`dest.path` is the source path with the *first occurrence* of the
`token_` text removed (the basename prefix whenever that text occurs
nowhere earlier), and the parsed date lands in the node's own Data. -/
theorem c8_dateprefix_amended (createDate : Option String → Option Int) (src : Src)
    (tok rest : String) (dt : Int)
    (h1 : basename src.path = tok ++ "_" ++ rest)
    (h2 : tok ≠ "")
    (h3 : ∀ ch ∈ tok.toList, (ch != '_') = true)
    (h4 : createDate (some tok) = some dt) :
    (mkBase createDate (some src)).dest.path = replaceFirst src.path (tok ++ "_") "" ∧
    jsGet (mkBase createDate (some src)).baseData "date" = some (Value.vDate dt) ∧
    (mkBase createDate (some src)).dest.ext = src.ext.getD "" := by
  have hd := dateInPath_shape tok rest h2 h3
  simp only [mkBase, Option.getD_some, h1, hd, h4]
  simp [jsGet]

/-- C8 counterexample: a recognized date token whose `token_` text also
opens an earlier path segment: the constructor removes the earlier
occurrence, leaving the basename prefix in place, instead of stripping the
basename prefix and keeping other segments unchanged. -/
theorem c8_dateprefix_counterexample :
    cdEx (some "2020-01-01") = some 1577836800 ∧
    basename srcClash.path = "2020-01-01_post" ∧
    (mkBase cdEx (some srcClash)).dest.path = "/dir/2020-01-01_post" ∧
    (mkBase cdEx (some srcClash)).dest.path ≠ "/2020-01-01_dir/post" := by
  refine ⟨rfl, by decide, by decide, by decide⟩

/-- C8 witness: the amended statement at a source whose date prefix occurs
only in the basename. -/
theorem c8_dateprefix_amended_witness :
    basename srcHello.path = "2020-01-01" ++ "_" ++ "hello" ∧
    ((mkBase cdEx (some srcHello)).dest.path = replaceFirst srcHello.path ("2020-01-01" ++ "_") "" ∧
     jsGet (mkBase cdEx (some srcHello)).baseData "date" = some (Value.vDate 1577836800) ∧
     (mkBase cdEx (some srcHello)).dest.ext = srcHello.ext.getD "") :=
  ⟨by decide,
    c8_dateprefix_amended cdEx srcHello "2020-01-01" "hello" 1577836800
      (by decide) (by decide) (by decide) rfl⟩

/-- C9 counterexample: a page with extension `.css` whose `document` was
assigned through the setter: reading `document` yields the stored document,
not absence. -/
theorem c9_document_counterexample :
    (Page.getDocument wCssDocPage).1 = some { html := "<p>x</p>" } ∧
    (Page.getDocument wCssDocPage).1 ≠ none := by
  exact ⟨by decide, by decide⟩

/-- C9 amended: reading `document` on a page whose destination extension is
neither `.html` nor `.htm` returns the parsed-document slot as it stands —
absence whenever only raw content is cached — never raises, and leaves the
page state (its cached raw content included) unchanged. -/
theorem c9_document_amended (p : PageS)
    (hh : p.toBase.dest.ext ≠ ".html") (hm : p.toBase.dest.ext ≠ ".htm") :
    Page.getDocument p = (p.document, p) := by
  cases hd : p.document with
  | some d => simp [Page.getDocument, hd]
  | none =>
    cases hc : p.content with
    | none => simp [Page.getDocument, hd, hc]
    | some c => simp [Page.getDocument, hd, hc, hh, hm]

/-- C9 witness: the amended statement at a `.css` page holding only raw
content. -/
theorem c9_document_amended_witness :
    wCssPage.toBase.dest.ext ≠ ".html" ∧ wCssPage.toBase.dest.ext ≠ ".htm" ∧
    Page.getDocument wCssPage = (wCssPage.document, wCssPage) :=
  ⟨by decide, by decide, c9_document_amended wCssPage (by decide) (by decide)⟩

/-- C10: the hash carried by `setPage` is exactly the old page's
(overwriting any hash the new page carried, and erasing it when the old one
had none); with no previous page the new page's hash is untouched.  Source
identity, own data and content of the stored page are those of the
argument. -/
theorem c10_hash_overwrite (d : DirectoryT) (n : String) (p : PageS) :
    ∃ q, jsGet ((d.setPage n p).pagesOf) n = some q ∧
      q.toBase.dest.hash = (match jsGet d.pagesOf n with
        | some op => op.toBase.dest.hash
        | none => p.toBase.dest.hash) ∧
      q.toBase.src = p.toBase.src ∧
      q.toBase.baseData = p.toBase.baseData ∧
      q.content = p.content := by
  cases d with
  | node base pages dirs sf comps =>
    cases hold : jsGet pages n with
    | some op =>
      simp only [DirectoryT.setPage, DirectoryT.pagesOf, hold]
      exact ⟨_, jsGet_jsSet_self _ _ _, rfl, rfl, rfl, rfl⟩
    | none =>
      simp only [DirectoryT.setPage, DirectoryT.pagesOf, hold]
      exact ⟨_, jsGet_jsSet_self _ _ _, rfl, rfl, rfl, rfl⟩

end Lume
